import Mathlib

/-!
Verification of `cs2-dumper-merger.py` (CS2ServerGuiSharp, `src/generator/`).

The development has three layers:

* a value model of parsed JSON (`JSON`/`JObj`/`JArr`, mutual inductives so all
  recursion stays structural) with `deep_merge` and `merge_json_files`
  translated line-by-line from the Python source; exceptions raised by the
  dynamically typed Python code (`TypeError`, `AttributeError`) are modelled by
  `Except.error`;
* a model of the remote-tree Collector `get_file_contents_from_github`,
  parameterised by the JSON parser (a library external) and by the remote
  directory tree (`RTree`/`RForest`);
* a heap model (`Heap`, `PyVal`, `Node`) capturing Python's reference/aliasing
  semantics, used for the purity/immutability (frame) properties: `deep_merge_h`
  and `merge_json_files_h` perform the same `.copy()`, in-place `extend` and
  key-assignment operations on an explicit store.
-/

set_option linter.unusedVariables false

namespace CS2DumperMerger

mutual
inductive JSON : Type where
  | obj : JObj → JSON
  | arr : JArr → JSON
  | str : String → JSON
  | num : Int → JSON
  | bool : Bool → JSON
  | null : JSON
inductive JObj : Type where
  | nil : JObj
  | cons : String → JSON → JObj → JObj
inductive JArr : Type where
  | nil : JArr
  | cons : JSON → JArr → JArr
end

deriving instance DecidableEq for JSON, JObj, JArr

deriving instance DecidableEq for Except

/-- Keys of a Python dict, in insertion order. -/
def JObj.keys : JObj → List String
  | JObj.nil => []
  | JObj.cons k _ rest => k :: JObj.keys rest

/-- Python dict read `d[key]` / membership `key in d` (a dict never holds a
key twice, so returning the first binding is exact). -/
def JObj.getKey : JObj → String → Option JSON
  | JObj.nil, _ => Option.none
  | JObj.cons k' v rest, k => if k' = k then some v else JObj.getKey rest k

/-- Python dict assignment `d[key] = v`: overwrites the binding in place if the
key is present, otherwise appends the new binding at the end. -/
def JObj.setKey : JObj → String → JSON → JObj
  | JObj.nil, k, v => JObj.cons k v JObj.nil
  | JObj.cons k' v' rest, k, v =>
    if k' = k then JObj.cons k' v rest else JObj.cons k' v' (JObj.setKey rest k v)

def JObj.append : JObj → JObj → JObj
  | JObj.nil, o => o
  | JObj.cons k v rest, o => JObj.cons k v (JObj.append rest o)

def JArr.append : JArr → JArr → JArr
  | JArr.nil, l => l
  | JArr.cons x rest, l => JArr.cons x (JArr.append rest l)

mutual
/-- `deep_merge(base, new)` of the source (lines 72–85): fold the items of
`new` into a copy of `base`, key by key. -/
def deep_merge : JObj → JObj → JObj
  | base, JObj.nil => base
  | base, JObj.cons k v rest => deep_merge (deep_merge_entry base k v) rest

/-- The body of the `for key, value in new.items()` loop of `deep_merge`:
`if key in result and isinstance(result[key], dict) and isinstance(value, dict):
result[key] = deep_merge(result[key], value) else: result[key] = value`. -/
def deep_merge_entry (base : JObj) (k : String) : JSON → JObj
  | JSON.obj n =>
    match JObj.getKey base k with
    | some (JSON.obj b) => JObj.setKey base k (JSON.obj (deep_merge b n))
    | _ => JObj.setKey base k (JSON.obj n)
  | v => JObj.setKey base k v
end

/-- Python truthiness as used by `if not merged:`: empty containers, zero, the
empty string, `False` and `None` are falsy. -/
def pyFalsy : JSON → Bool
  | JSON.obj JObj.nil => true
  | JSON.arr JArr.nil => true
  | JSON.str "" => true
  | JSON.num 0 => true
  | JSON.bool false => true
  | JSON.null => true
  | _ => false

/-- Character scan behind `os.path.splitext`: `root` is the committed part of
the stem, `pending` the chars from the last extension-starting dot on; a dot
begins an extension only once a non-dot character has been seen. -/
def splitextGo : List Char → Bool → List Char → List Char → List Char
  | [], _, root, _ => root
  | c :: rest, seen, root, pending =>
    if c = '.' then
      if seen then splitextGo rest seen (root ++ pending) ['.']
      else splitextGo rest seen (root ++ ['.']) pending
    else
      if pending.isEmpty then splitextGo rest true (root ++ [c]) pending
      else splitextGo rest true root (pending ++ [c])

/-- `os.path.splitext(filename)[0]`, the filename with its extension stripped
(the synthetic key the merger uses for sequence- and primitive-valued files). -/
def splitextRoot (s : String) : String := String.mk (splitextGo s.data false [] [])

/-- `os.path.basename`: the part of a path after the last `/`. -/
def basenameGo : List Char → List Char → List Char
  | [], acc => acc
  | c :: rest, acc => if c = '/' then basenameGo rest [] else basenameGo rest (acc ++ [c])

def basename (s : String) : String := String.mk (basenameGo s.data [])

/-- Code-point lexicographic comparison of strings, the order Python's `sorted`
uses on the filenames (written out so that it evaluates by kernel reduction). -/
def charListLe : List Char → List Char → Bool
  | [], _ => true
  | _ :: _, [] => false
  | a :: as, b :: bs =>
    if a.toNat < b.toNat then true
    else if a.toNat = b.toNat then charListLe as bs
    else false

def fileLe {α : Type} (p q : String × α) : Prop := charListLe p.1.data q.1.data = true

instance {α : Type} : DecidableRel (@fileLe α) := fun p q => instDecidableEqBool _ _

/-- `sorted(json_files.items())`: the (filename, content) pairs in ascending
filename order (the filenames are dict keys, hence pairwise distinct, so the
contents never take part in the comparison). -/
def sortFiles {α : Type} (fs : List (String × α)) : List (String × α) :=
  List.insertionSort fileLe fs

/-- The call `deep_merge(merged, content)` of `merge_json_files`, where the
accumulator `merged` is dynamically typed: on a dict it merges; on a list,
`base.copy()` succeeds but the first iteration's `result[key] = value` (or
`result[key]` read) raises `TypeError`, so a non-empty `new` aborts while an
empty `new` returns the list copy; any other receiver has no `.copy()`. -/
def deep_merge_dyn : JSON → JObj → Except String JSON
  | JSON.obj b, n => Except.ok (JSON.obj (deep_merge b n))
  | JSON.arr l, JObj.nil => Except.ok (JSON.arr l)
  | JSON.arr _, JObj.cons _ _ _ => Except.error "TypeError"
  | _, _ => Except.error "AttributeError"

/-- One iteration of the `for filename, content in sorted(...)` loop of
`merge_json_files` (lines 95–117); `Except.error` models a raised exception. -/
def merge_step (merged : JSON) (filename : String) (content : JSON) : Except String JSON :=
  match content with
  | JSON.obj n => deep_merge_dyn merged n
  | JSON.arr l =>
    if pyFalsy merged then Except.ok (JSON.arr l)
    else
      match merged with
      | JSON.arr ml => Except.ok (JSON.arr (JArr.append ml l))
      | JSON.obj mo =>
        match JObj.getKey mo (splitextRoot filename) with
        | Option.none =>
          Except.ok (JSON.obj (JObj.setKey mo (splitextRoot filename) (JSON.arr l)))
        | some (JSON.arr e) =>
          Except.ok (JSON.obj (JObj.setKey mo (splitextRoot filename) (JSON.arr (JArr.append e l))))
        | some _ =>
          Except.ok (JSON.obj (JObj.setKey mo (splitextRoot filename) (JSON.arr l)))
      | _ => Except.error "TypeError"
  | prim =>
    match merged with
    | JSON.obj mo => Except.ok (JSON.obj (JObj.setKey mo (splitextRoot filename) prim))
    | _ => Except.error "TypeError"

/-- `merge_json_files` (lines 88–119): fold the files, in sorted filename
order, into an accumulator that starts as the empty dict. -/
def merge_json_files (json_files : List (String × JSON)) : Except String JSON :=
  (sortFiles json_files).foldlM (fun merged p => merge_step merged p.1 p.2)
    (JSON.obj JObj.nil)

/-! ### The Collector: `get_file_contents_from_github` (lines 20–69)

The remote repository tree is modelled as a finite tree of listing entries; a
`file` entry carries its `path`, its `download_url` (absent when the API omits
it), the HTTP status of its download and the downloaded body text. A directory
entry carries the outcome of listing it: `dirFail` when the listing request did
not return status 200 (the code raises), `dirOk` with its entries otherwise.
`json.loads` is a library external, passed in as `parse` (`Option.none` models
`json.JSONDecodeError`). -/

mutual
inductive RTree : Type where
  | file : String → Option String → Nat → String → RTree
  | dirOk : String → RForest → RTree
  | dirFail : String → Nat → RTree
  | other : String → RTree
inductive RForest : Type where
  | nil : RForest
  | cons : RTree → RForest → RForest
end

/-- `s.endswith(suffix)`. -/
def endsWith (s suffix : String) : Bool :=
  decide (s.data.reverse.take suffix.data.length = suffix.data.reverse)

/-- Python dict read on a plain association list (first binding wins). -/
def getKeyL {α : Type} : List (String × α) → String → Option α
  | [], _ => Option.none
  | (k', v) :: rest, k => if k' = k then some v else getKeyL rest k

/-- Python dict assignment on a plain association list. -/
def setKeyL {α : Type} : List (String × α) → String → α → List (String × α)
  | [], k, v => [(k, v)]
  | (k', v') :: rest, k, v =>
    if k' = k then (k', v) :: rest else (k', v') :: setKeyL rest k v

/-- `json_files.update(subdir_files)`: fold the sub-result into the dict,
later bindings overwriting earlier ones key by key. -/
def dictUpdate {α : Type} (acc sub : List (String × α)) : List (String × α) :=
  sub.foldl (fun a p => setKeyL a p.1 p.2) acc

mutual
/-- Processing of one listing item by `get_file_contents_from_github`: a
`.json` file with a truthy `download_url` is downloaded, parsed and inserted
under its basename (parse and download failures are skipped); a directory is
recursed into and its result folded in via `update`; anything else is skipped.
A failed directory listing raises, aborting the whole collection. -/
def collect_item (parse : String → Option JSON) (acc : List (String × JSON)) :
    RTree → Except String (List (String × JSON))
  | RTree.file path durl status body =>
    if endsWith path ".json" then
      match durl with
      | some u =>
        if u = "" then Except.ok acc
        else if status = 200 then
          match parse body with
          | some j => Except.ok (setKeyL acc (basename path) j)
          | Option.none => Except.ok acc
        else Except.ok acc
      | Option.none => Except.ok acc
    else Except.ok acc
  | RTree.other _ => Except.ok acc
  | RTree.dirFail _ status =>
    Except.error ("Failed to fetch directory: " ++ toString status)
  | RTree.dirOk _ listing =>
    match collect_forest parse [] listing with
    | Except.ok sub => Except.ok (dictUpdate acc sub)
    | Except.error e => Except.error e

/-- The `for item in files` loop of `get_file_contents_from_github`. -/
def collect_forest (parse : String → Option JSON) (acc : List (String × JSON)) :
    RForest → Except String (List (String × JSON))
  | RForest.nil => Except.ok acc
  | RForest.cons t rest =>
    match collect_item parse acc t with
    | Except.ok acc' => collect_forest parse acc' rest
    | Except.error e => Except.error e
end

/-- `get_file_contents_from_github` applied to a successfully fetched root
listing: `json_files = {}` then the item loop. -/
def get_file_contents_from_github (parse : String → Option JSON)
    (listing : RForest) : Except String (List (String × JSON)) :=
  collect_forest parse [] listing

mutual
/-- Spec-side description (§4.1), stated from the spec's words for comparison
with the code's Collector: the (basename, value) pairs of exactly those files
in the tree that are `.json`-named, carry a usable download URL, were
downloaded with status 200 and whose body parsed — the entries the spec
guarantees are the only ones the Collector returns. -/
def okFilesItem (parse : String → Option JSON) : RTree → List (String × JSON)
  | RTree.file path durl status body =>
    if endsWith path ".json" then
      match durl with
      | some u =>
        if u = "" then []
        else if status = 200 then
          match parse body with
          | some j => [(basename path, j)]
          | Option.none => []
        else []
      | Option.none => []
    else []
  | RTree.other _ => []
  | RTree.dirFail _ _ => []
  | RTree.dirOk _ listing => okFilesForest parse listing

def okFilesForest (parse : String → Option JSON) : RForest → List (String × JSON)
  | RForest.nil => []
  | RForest.cons t rest => okFilesItem parse t ++ okFilesForest parse rest
end

/-! ### Top-level orchestration: `main` (lines 122–160) -/

/-- Observable outcome of one run of `main`: `noOutput` is the
`"No JSON files found!"` early return (no file written, clean exit), `wrote`
the successful write of the merged document, `failed` an exception caught by
the top-level handler (diagnostic printed, no usable output file). -/
inductive MainOutcome : Type where
  | noOutput : MainOutcome
  | wrote : JSON → MainOutcome
  | failed : String → MainOutcome

deriving instance DecidableEq for MainOutcome

/-- `main` after the fetch step (lines 131–151), parameterised by the
Collector's outcome: a raised fetch error is caught at top level; an empty
FileSet returns before any merging or writing; otherwise the merged document
is written (a merge exception again reaching the top-level handler). -/
def main_after_fetch (fetched : Except String (List (String × JSON))) : MainOutcome :=
  match fetched with
  | Except.error e => MainOutcome.failed e
  | Except.ok json_files =>
    if json_files.isEmpty then MainOutcome.noOutput
    else
      match merge_json_files json_files with
      | Except.ok merged => MainOutcome.wrote merged
      | Except.error e => MainOutcome.failed e

/-! ### The heap model

Python dicts and lists are mutable objects on a heap; variables and container
slots hold references. `PyVal` is an immediate value or a reference, `Node` a
dict or list object, `Heap` the store. The merger's code is re-traced on this
model so that mutation and aliasing are observable. `deep_merge_h` threads a
fuel counter (the Python recursion is bounded by the acyclic input); running
out of fuel and raising an exception both yield `Option.none`. -/

abbrev Addr := Nat

inductive PyVal : Type where
  | ref : Addr → PyVal
  | str : String → PyVal
  | int : Int → PyVal
  | bool : Bool → PyVal
  | none : PyVal

deriving instance DecidableEq for PyVal

inductive Node : Type where
  | dict : List (String × PyVal) → Node
  | list : List PyVal → Node

deriving instance DecidableEq for Node

structure Heap : Type where
  store : Addr → Option Node
  next : Addr

/-- Allocate a fresh object (`base.copy()`, a literal `{}` …). -/
def Heap.alloc (h : Heap) (n : Node) : Heap × Addr :=
  ({ store := fun a => if a = h.next then some n else h.store a, next := h.next + 1 },
    h.next)

/-- Mutate the object at `a` in place (`d[k] = v`, `l.extend(...)`). -/
def Heap.write (h : Heap) (a : Addr) (n : Node) : Heap :=
  { store := fun x => if x = a then some n else h.store x, next := h.next }

/-- Python truthiness of a container object. -/
def nodeFalsy : Node → Bool
  | Node.dict [] => true
  | Node.list [] => true
  | _ => false

mutual
/-- `deep_merge(base, new)` on the heap: `result = base.copy()` allocates a
fresh shallow copy of the receiver, then the item loop of `new` runs against
it. `new` must be a dict (the caller only passes file contents that are
dicts); a non-dict receiver still has `.copy()` only when it is a list. -/
def deep_merge_h : Nat → Heap → Addr → Addr → Option (Heap × Addr)
  | 0, _, _, _ => Option.none
  | Nat.succ fuel, h, baseA, newA =>
    match h.store newA with
    | some (Node.dict nents) =>
      match h.store baseA with
      | some nd => dm_loop fuel (h.alloc nd).1 (h.alloc nd).2 nents
      | Option.none => Option.none
    | _ => Option.none

/-- The `for key, value in new.items()` loop of `deep_merge`, mutating the
fresh copy at `resA`: both-dict collisions recurse, everything else is plain
assignment; if the copy is a list object, the first iteration's indexing by a
string key raises `TypeError`. -/
def dm_loop : Nat → Heap → Addr → List (String × PyVal) → Option (Heap × Addr)
  | 0, _, _, _ => Option.none
  | Nat.succ _, h, resA, [] => some (h, resA)
  | Nat.succ fuel, h, resA, (k, v) :: rest =>
    match h.store resA with
    | some (Node.dict rents) =>
      match getKeyL rents k, v with
      | some (PyVal.ref ra), PyVal.ref va =>
        (match h.store ra, h.store va with
         | some (Node.dict _), some (Node.dict _) =>
           (match deep_merge_h fuel h ra va with
            | some (h2, ma) =>
              (match h2.store resA with
               | some (Node.dict rents2) =>
                 dm_loop fuel (h2.write resA (Node.dict (setKeyL rents2 k (PyVal.ref ma))))
                   resA rest
               | _ => Option.none)
            | Option.none => Option.none)
         | _, _ =>
           dm_loop fuel (h.write resA (Node.dict (setKeyL rents k v))) resA rest)
      | _, _ =>
        dm_loop fuel (h.write resA (Node.dict (setKeyL rents k v))) resA rest
    | some (Node.list _) => Option.none
    | Option.none => Option.none
end

/-- The per-file loop of `merge_json_files` on the heap. The accumulator
variable `merged` holds a reference; note the aliasing of rule
`merged = content` and the in-place `extend` calls. -/
def mjf_loop : Nat → Heap → Addr → List (String × PyVal) → Option (Heap × Addr)
  | _, h, mergedA, [] => some (h, mergedA)
  | fuel, h, mergedA, (filename, content) :: rest =>
    match content with
    | PyVal.ref ca =>
      (match h.store ca with
       | some (Node.dict _) =>
         (match deep_merge_h fuel h mergedA ca with
          | some (h2, rA) => mjf_loop fuel h2 rA rest
          | Option.none => Option.none)
       | some (Node.list lel) =>
         (match h.store mergedA with
          | some mnode =>
            if nodeFalsy mnode then mjf_loop fuel h ca rest
            else
              (match mnode with
               | Node.list mel =>
                 mjf_loop fuel (h.write mergedA (Node.list (mel ++ lel))) mergedA rest
               | Node.dict ments =>
                 match getKeyL ments (splitextRoot filename) with
                 | Option.none =>
                   mjf_loop fuel
                     (h.write mergedA (Node.dict (setKeyL ments (splitextRoot filename) content)))
                     mergedA rest
                 | some (PyVal.ref ea) =>
                   (match h.store ea with
                    | some (Node.list eel) =>
                      mjf_loop fuel (h.write ea (Node.list (eel ++ lel))) mergedA rest
                    | _ =>
                      mjf_loop fuel
                        (h.write mergedA
                          (Node.dict (setKeyL ments (splitextRoot filename) content)))
                        mergedA rest)
                 | some _ =>
                   mjf_loop fuel
                     (h.write mergedA (Node.dict (setKeyL ments (splitextRoot filename) content)))
                     mergedA rest)
          | Option.none => Option.none)
       | Option.none => Option.none)
    | prim =>
      match h.store mergedA with
      | some (Node.dict ments) =>
        mjf_loop fuel
          (h.write mergedA (Node.dict (setKeyL ments (splitextRoot filename) prim)))
          mergedA rest
      | _ => Option.none

/-- `merge_json_files` on the heap: `merged = {}` allocates a fresh empty
dict, then the loop runs over the files in sorted filename order. -/
def merge_json_files_h (fuel : Nat) (h : Heap) (json_files : List (String × PyVal)) :
    Option (Heap × Addr) :=
  mjf_loop fuel (h.alloc (Node.dict [])).1 (h.alloc (Node.dict [])).2
    (sortFiles json_files)

/-! ### Lemmas: Python dict reads and writes -/

theorem getKey_setKey_self : ∀ (o : JObj) (k : String) (v : JSON),
    (o.setKey k v).getKey k = some v
  | JObj.nil, k, v => by simp [JObj.setKey, JObj.getKey]
  | JObj.cons k' v' rest, k, v => by
    by_cases h : k' = k
    · simp [JObj.setKey, JObj.getKey, h]
    · simp [JObj.setKey, JObj.getKey, h, getKey_setKey_self rest k v]

theorem getKey_setKey_ne : ∀ (o : JObj) (k k2 : String) (v : JSON), k ≠ k2 →
    (o.setKey k v).getKey k2 = o.getKey k2
  | JObj.nil, k, k2, v, hne => by simp [JObj.setKey, JObj.getKey, hne]
  | JObj.cons k' v' rest, k, k2, v, hne => by
    by_cases h : k' = k
    · subst h; simp [JObj.setKey, JObj.getKey, hne]
    · simp [JObj.setKey, JObj.getKey, h, getKey_setKey_ne rest k k2 v hne]

theorem getKey_eq_none : ∀ (o : JObj) (k : String), k ∉ o.keys →
    o.getKey k = Option.none
  | JObj.nil, _, _ => rfl
  | JObj.cons k' v' rest, k, h => by
    simp only [JObj.keys, List.mem_cons] at h
    push_neg at h
    have hne : ¬ k' = k := fun he => h.1 he.symm
    simp [JObj.getKey, hne, getKey_eq_none rest k h.2]

/-- Spec-side per-key merge rule (§4.2/§8), stated from the spec's words for
comparison with the code's `deep_merge`: the recursive merge when both sides
hold objects at the key, otherwise the incoming side's value, otherwise
whichever side is present. -/
def deep_merge_keySpec (a b : Option JSON) : Option JSON :=
  match b with
  | Option.none => a
  | some v =>
    match a, v with
    | some (JSON.obj x), JSON.obj y => some (JSON.obj (deep_merge x y))
    | _, _ => some v

theorem getKey_deep_merge_entry_self (base : JObj) (k : String) (v : JSON) :
    (deep_merge_entry base k v).getKey k = deep_merge_keySpec (base.getKey k) (some v) := by
  cases hb : base.getKey k with
  | none =>
    cases v <;> simp [deep_merge_entry, hb, getKey_setKey_self, deep_merge_keySpec]
  | some w =>
    cases v <;> cases w <;>
      simp [deep_merge_entry, hb, getKey_setKey_self, deep_merge_keySpec]

theorem getKey_deep_merge_entry_ne (base : JObj) (k : String) (v : JSON) (k2 : String)
    (hne : k ≠ k2) : (deep_merge_entry base k v).getKey k2 = base.getKey k2 := by
  cases hb : base.getKey k with
  | none =>
    cases v <;> simp [deep_merge_entry, hb, getKey_setKey_ne _ _ _ _ hne]
  | some w =>
    cases v <;> cases w <;> simp [deep_merge_entry, hb, getKey_setKey_ne _ _ _ _ hne]

/-- Pointwise characterisation of `deep_merge`: at every key the result is
exactly what the spec's per-key rule predicts. -/
theorem getKey_deep_merge : ∀ (B A : JObj) (k : String), B.keys.Nodup →
    (deep_merge A B).getKey k = deep_merge_keySpec (A.getKey k) (B.getKey k)
  | JObj.nil, A, k, _ => by simp [deep_merge, JObj.getKey, deep_merge_keySpec]
  | JObj.cons k0 v0 rest, A, k, hnd => by
    have hnd2 : rest.keys.Nodup ∧ k0 ∉ rest.keys := by
      have h := hnd
      simp only [JObj.keys, List.nodup_cons] at h
      exact ⟨h.2, h.1⟩
    have hd : deep_merge A (JObj.cons k0 v0 rest) = deep_merge (deep_merge_entry A k0 v0) rest :=
      rfl
    rw [hd, getKey_deep_merge rest (deep_merge_entry A k0 v0) k hnd2.1]
    by_cases hkk : k0 = k
    · subst hkk
      rw [getKey_eq_none rest k0 hnd2.2, getKey_deep_merge_entry_self]
      simp [deep_merge_keySpec, JObj.getKey]
    · rw [getKey_deep_merge_entry_ne A k0 v0 k hkk]
      simp [JObj.getKey, hkk]

/-! ### Lemmas: identity element of `deep_merge` -/

theorem JObj.append_nil : ∀ A : JObj, A.append JObj.nil = A
  | JObj.nil => rfl
  | JObj.cons k v rest => by simp [JObj.append, JObj.append_nil rest]

theorem JObj.append_assoc : ∀ (A B C : JObj), (A.append B).append C = A.append (B.append C)
  | JObj.nil, _, _ => rfl
  | JObj.cons k v rest, B, C => by simp [JObj.append, JObj.append_assoc rest B C]

theorem getKey_append_none : ∀ (A B : JObj) (k : String), A.getKey k = Option.none →
    B.getKey k = Option.none → (A.append B).getKey k = Option.none
  | JObj.nil, B, k, _, hB => by simpa [JObj.append] using hB
  | JObj.cons k' v rest, B, k, hA, hB => by
    by_cases h : k' = k
    · simp [JObj.getKey, h] at hA
    · simp only [JObj.getKey, h, if_false] at hA
      simp [JObj.append, JObj.getKey, h, getKey_append_none rest B k hA hB]

theorem setKey_of_getKey_none : ∀ (A : JObj) (k : String) (v : JSON),
    A.getKey k = Option.none → A.setKey k v = A.append (JObj.cons k v JObj.nil)
  | JObj.nil, _, _, _ => rfl
  | JObj.cons k' v' rest, k, v, h => by
    by_cases hk : k' = k
    · simp [JObj.getKey, hk] at h
    · simp only [JObj.getKey, hk, if_false] at h
      simp [JObj.setKey, JObj.append, hk, setKey_of_getKey_none rest k v h]

theorem deep_merge_entry_of_none (A : JObj) (k : String) (v : JSON)
    (h : A.getKey k = Option.none) : deep_merge_entry A k v = A.setKey k v := by
  cases v <;> simp [deep_merge_entry, h]

theorem deep_merge_disjoint : ∀ (B A : JObj), B.keys.Nodup →
    (∀ k ∈ B.keys, A.getKey k = Option.none) → deep_merge A B = A.append B
  | JObj.nil, A, _, _ => (JObj.append_nil A).symm
  | JObj.cons k v rest, A, hnd, hdisj => by
    have hnd2 : rest.keys.Nodup ∧ k ∉ rest.keys := by
      have h := hnd
      simp only [JObj.keys, List.nodup_cons] at h
      exact ⟨h.2, h.1⟩
    have hAk : A.getKey k = Option.none := hdisj k (by simp [JObj.keys])
    have hstep : deep_merge A (JObj.cons k v rest) =
        deep_merge (A.append (JObj.cons k v JObj.nil)) rest := by
      show deep_merge (deep_merge_entry A k v) rest = _
      rw [deep_merge_entry_of_none A k v hAk, setKey_of_getKey_none A k v hAk]
    rw [hstep, deep_merge_disjoint rest (A.append (JObj.cons k v JObj.nil)) hnd2.1 ?_,
      JObj.append_assoc]
    · rfl
    · intro k' hk'
      have hne : k ≠ k' := fun he => hnd2.2 (he ▸ hk')
      refine getKey_append_none A _ k' (hdisj k' (by simp [JObj.keys, hk'])) ?_
      simp [JObj.getKey, hne]

/-! ### Lemmas: the filename order and the determinism of `sortFiles` -/

theorem charListLe_total (as : List Char) : ∀ bs, charListLe as bs = true ∨ charListLe bs as = true := by
  induction as with
  | nil => intro bs; left; rfl
  | cons a as ih =>
    intro bs
    cases bs with
    | nil => right; rfl
    | cons b bs =>
      rcases Nat.lt_trichotomy a.toNat b.toNat with h | h | h
      · left; simp [charListLe, h]
      · have h1 : ¬ a.toNat < b.toNat := by omega
        have h2 : ¬ b.toNat < a.toNat := by omega
        rcases ih bs with hr | hr
        · left; simp [charListLe, h1, h, hr]
        · right; simp [charListLe, h2, h.symm, hr]
      · right; simp [charListLe, h]

theorem charListLe_trans (as : List Char) : ∀ bs cs, charListLe as bs = true →
    charListLe bs cs = true → charListLe as cs = true := by
  induction as with
  | nil => intro bs cs _ _; rfl
  | cons a as ih =>
    intro bs cs h1 h2
    cases bs with
    | nil => simp [charListLe] at h1
    | cons b bs =>
      cases cs with
      | nil => simp [charListLe] at h2
      | cons c cs =>
        simp only [charListLe] at h1 h2 ⊢
        split_ifs at h1 h2 ⊢ <;> first
          | rfl
          | omega
          | exact ih bs cs h1 h2

theorem charListLe_antisymm (as : List Char) : ∀ bs, charListLe as bs = true →
    charListLe bs as = true → as = bs := by
  induction as with
  | nil =>
    intro bs _ h2
    cases bs with
    | nil => rfl
    | cons b bs => simp [charListLe] at h2
  | cons a as ih =>
    intro bs h1 h2
    cases bs with
    | nil => simp [charListLe] at h1
    | cons b bs =>
      simp only [charListLe] at h1 h2
      by_cases hlt : a.toNat < b.toNat
      · have h3 : ¬ b.toNat < a.toNat := by omega
        have h4 : ¬ b.toNat = a.toNat := by omega
        simp [h3, h4] at h2
      · by_cases heq : a.toNat = b.toNat
        · have h3 : ¬ b.toNat < a.toNat := by omega
          simp only [if_neg hlt, if_pos heq] at h1
          simp only [if_neg h3, if_pos heq.symm] at h2
          have hc : a = b := by
            have h4 := congrArg Char.ofNat heq
            rwa [Char.ofNat_toNat, Char.ofNat_toNat] at h4
          rw [hc, ih bs h1 h2]
        · simp [hlt, heq] at h1

/-- The strict filename order: used to show a sorted, duplicate-free file list
is uniquely determined. -/
def fileLt {α : Type} (p q : String × α) : Prop := fileLe p q ∧ p.1 ≠ q.1

theorem string_eq_of_data_eq (s t : String) (h : s.data = t.data) : s = t := by
  cases s with
  | mk d1 => cases t with
    | mk d2 => exact congrArg String.mk h

theorem sorted_nodup_pairwise_lt {α : Type} (l : List (String × α))
    (hs : List.Sorted (@fileLe α) l) (hnd : (l.map Prod.fst).Nodup) :
    List.Pairwise (@fileLt α) l := by
  have h1 : List.Pairwise (fun p q : String × α => p.1 ≠ q.1) l := by
    rw [List.Nodup, List.pairwise_map] at hnd
    exact hnd
  exact (List.Pairwise.and hs h1).imp (fun h => ⟨h.1, h.2⟩)

theorem sortFiles_eq_of_perm {α : Type} (fs1 fs2 : List (String × α))
    (hnd : (fs1.map Prod.fst).Nodup) (hp : List.Perm fs1 fs2) :
    sortFiles fs1 = sortFiles fs2 := by
  haveI htot : IsTotal (String × α) fileLe := ⟨fun p q => charListLe_total p.1.data q.1.data⟩
  haveI htr : IsTrans (String × α) fileLe :=
    ⟨fun p q r h1 h2 => charListLe_trans p.1.data q.1.data r.1.data h1 h2⟩
  haveI hanti : IsAntisymm (String × α) fileLt := ⟨fun p q h1 h2 => by
    have hd := charListLe_antisymm p.1.data q.1.data h1.1 h2.1
    exact absurd (string_eq_of_data_eq p.1 q.1 hd) h1.2⟩
  have hs1 : List.Sorted (@fileLe α) (sortFiles fs1) := List.sorted_insertionSort fileLe fs1
  have hs2 : List.Sorted (@fileLe α) (sortFiles fs2) := List.sorted_insertionSort fileLe fs2
  have hperm : List.Perm (sortFiles fs1) (sortFiles fs2) :=
    (List.perm_insertionSort fileLe fs1).trans (hp.trans (List.perm_insertionSort fileLe fs2).symm)
  have hnd1 : ((sortFiles fs1).map Prod.fst).Nodup :=
    (((List.perm_insertionSort fileLe fs1).map Prod.fst).nodup_iff).mpr hnd
  have hnd2 : ((sortFiles fs2).map Prod.fst).Nodup :=
    ((hperm.map Prod.fst).nodup_iff).mp hnd1
  exact List.eq_of_perm_of_sorted hperm
    (sorted_nodup_pairwise_lt _ hs1 hnd1) (sorted_nodup_pairwise_lt _ hs2 hnd2)

/-! ### Claim C1: associativity fails, non-commutativity holds -/

def c1a : JObj := JObj.cons "k" (JSON.obj (JObj.cons "p" (JSON.num 1) JObj.nil)) JObj.nil

def c1b : JObj := JObj.cons "k" (JSON.num 5) JObj.nil

def c1c : JObj := JObj.cons "k" (JSON.obj (JObj.cons "q" (JSON.num 2) JObj.nil)) JObj.nil

def c1x : JObj := JObj.cons "k" (JSON.num 1) JObj.nil

def c1y : JObj := JObj.cons "k" (JSON.num 2) JObj.nil

/-- C1, counterexample to the associativity half: with `a = {"k": {"p": 1}}`,
`b = {"k": 5}`, `c = {"k": {"q": 2}}`, merging left-to-right gives
`{"k": {"q": 2}}` while merging `b`,`c` first gives `{"k": {"p": 1, "q": 2}}`,
so `deep_merge` is not associative. -/
theorem C1_assoc_counterexample :
    ¬ (deep_merge (deep_merge c1a c1b) c1c = deep_merge c1a (deep_merge c1b c1c)) := by
  decide

/-- C1 as amended: `deep_merge` is NOT associative (an object/non-object/object
collision at a shared key separates the two bracketings), and — as the claim
correctly states — it is not commutative: swapping two objects with a
conflicting key changes which leaf value survives at the shared key. -/
theorem C1_not_assoc_not_comm :
    (¬ (deep_merge (deep_merge c1a c1b) c1c = deep_merge c1a (deep_merge c1b c1c))) ∧
    (¬ (deep_merge c1x c1y = deep_merge c1y c1x)) ∧
    (deep_merge c1x c1y).getKey "k" = some (JSON.num 2) ∧
    (deep_merge c1y c1x).getKey "k" = some (JSON.num 1) := by
  refine ⟨?_, ?_, ?_, ?_⟩ <;> decide

/-! ### Claim C2: lexicographic processing order; per-key collision rule -/

def c2A : JObj := JObj.cons "k" (JSON.obj (JObj.cons "p" (JSON.num 1) JObj.nil)) JObj.nil

def c2B : JObj := JObj.cons "k" (JSON.obj (JObj.cons "q" (JSON.num 2) JObj.nil)) JObj.nil

def c2fs1 : List (String × JSON) :=
  [("b.json", JSON.obj (JObj.cons "k" (JSON.num 2) JObj.nil)),
   ("a.json", JSON.obj (JObj.cons "k" (JSON.num 1) JObj.nil))]

def c2fs2 : List (String × JSON) :=
  [("a.json", JSON.obj (JObj.cons "k" (JSON.num 1) JObj.nil)),
   ("b.json", JSON.obj (JObj.cons "k" (JSON.num 2) JObj.nil))]

/-- C2: `merge_json_files` is insensitive to the order in which the FileSet
lists its entries (it processes them in sorted filename order); an
object-valued file is folded in with `deep_merge`; and at every key a deep
merge realises the spec's collision rule — both-objects deep-merge
recursively, otherwise the incoming (later-sorted) value overwrites wholesale
and an uncontested value survives. -/
theorem C2_order_and_collision_rule :
    (∀ fs1 fs2 : List (String × JSON), (fs1.map Prod.fst).Nodup → List.Perm fs1 fs2 →
      merge_json_files fs1 = merge_json_files fs2) ∧
    (∀ (A : JObj) (fn : String) (B : JObj),
      merge_step (JSON.obj A) fn (JSON.obj B) = Except.ok (JSON.obj (deep_merge A B))) ∧
    (∀ (A B : JObj) (k : String), B.keys.Nodup →
      (deep_merge A B).getKey k = deep_merge_keySpec (A.getKey k) (B.getKey k)) := by
  refine ⟨?_, ?_, ?_⟩
  · intro fs1 fs2 hnd hp
    unfold merge_json_files
    rw [sortFiles_eq_of_perm fs1 fs2 hnd hp]
  · intro A fn B; rfl
  · intro A B k hnd; exact getKey_deep_merge B A k hnd

/-- C2 at a concrete input: listing the two files in the wrong order does not
change the result, and a both-objects collision at `"k"` deep-merges. -/
theorem C2_witness :
    merge_json_files c2fs1 = merge_json_files c2fs2 ∧
    (deep_merge c2A c2B).getKey "k" = deep_merge_keySpec (c2A.getKey "k") (c2B.getKey "k") :=
  ⟨C2_order_and_collision_rule.1 c2fs1 c2fs2 (by decide) (List.Perm.swap _ _ _),
   C2_order_and_collision_rule.2.2 c2A c2B "k" (by decide)⟩

/-! ### Claim C3: the sequence-valued file rule -/

def c3seq : JSON := JSON.arr (JArr.cons (JSON.num 1) (JArr.cons (JSON.num 2) JArr.nil))

def c3ml : JArr := JArr.cons (JSON.num 1) JArr.nil

def c3l : JArr := JArr.cons (JSON.num 2) JArr.nil

/-- C3: a sequence-valued file replaces an empty accumulator wholesale (a
FileSet holding only `a.json = [1,2]` yields top-level `[1,2]`); appends its
elements to a sequence accumulator; and lands under the extension-stripped
synthetic key in a non-empty object accumulator, extending an existing
sequence at that key and overwriting any non-sequence value there. -/
theorem C3_sequence_rule :
    (∀ (fn : String) (l : JArr),
      merge_step (JSON.obj JObj.nil) fn (JSON.arr l) = Except.ok (JSON.arr l) ∧
      merge_step (JSON.arr JArr.nil) fn (JSON.arr l) = Except.ok (JSON.arr l)) ∧
    (∀ (fn : String) (ml l : JArr), ml ≠ JArr.nil →
      merge_step (JSON.arr ml) fn (JSON.arr l) =
        Except.ok (JSON.arr (JArr.append ml l))) ∧
    (∀ (fn : String) (mo : JObj) (l : JArr), mo ≠ JObj.nil →
      merge_step (JSON.obj mo) fn (JSON.arr l) =
        Except.ok (JSON.obj
          (match mo.getKey (splitextRoot fn) with
           | some (JSON.arr e) => mo.setKey (splitextRoot fn) (JSON.arr (JArr.append e l))
           | _ => mo.setKey (splitextRoot fn) (JSON.arr l)))) ∧
    merge_json_files [("a.json", c3seq)] = Except.ok c3seq := by
  refine ⟨fun fn l => ⟨rfl, rfl⟩, ?_, ?_, by decide⟩
  · intro fn ml l h
    cases ml with
    | nil => exact absurd rfl h
    | cons x rest => rfl
  · intro fn mo l h
    cases mo with
    | nil => exact absurd rfl h
    | cons k0 v0 rest =>
      cases hg : (JObj.cons k0 v0 rest).getKey (splitextRoot fn) with
      | none => simp [merge_step, pyFalsy, hg]
      | some w => cases w <;> simp [merge_step, pyFalsy, hg]

/-- C3 at a concrete input: a one-element sequence accumulator is extended by
the incoming file's elements. -/
theorem C3_witness :
    merge_step (JSON.arr c3ml) "b.json" (JSON.arr c3l) =
      Except.ok (JSON.arr (JArr.append c3ml c3l)) :=
  C3_sequence_rule.2.1 "b.json" c3ml c3l (by decide)

/-! ### Claim C5: an object file onto a sequence accumulator -/

def c5files : List (String × JSON) :=
  [("a.json", JSON.arr (JArr.cons (JSON.num 1) JArr.nil)),
   ("b.json", JSON.obj (JObj.cons "x" (JSON.num 1) JObj.nil))]

/-- C5, counterexample: with `a.json = [1]` (making the accumulator a list)
and `b.json = {"x": 1}`, `merge_json_files` raises `TypeError` instead of
silently overwriting keys on top of the accumulator. -/
theorem C5_counterexample : merge_json_files c5files = Except.error "TypeError" := by
  decide

/-- C5 as amended: an object-valued file reaching a sequence-shaped accumulator
raises `TypeError` (the run aborts) whenever the object is non-empty; only an
empty object file passes through, leaving the accumulator as a copy of the
list. -/
theorem C5_object_onto_list_raises :
    (∀ (ml : JArr) (fn k : String) (v : JSON) (n : JObj),
      merge_step (JSON.arr ml) fn (JSON.obj (JObj.cons k v n)) = Except.error "TypeError") ∧
    (∀ (ml : JArr) (fn : String),
      merge_step (JSON.arr ml) fn (JSON.obj JObj.nil) = Except.ok (JSON.arr ml)) :=
  ⟨fun ml fn k v n => rfl, fun ml fn => rfl⟩

/-! ### Claim C7: the empty object is the identity of `deep_merge` -/

def c7B : JObj := JObj.cons "a" (JSON.num 1) (JObj.cons "b" JSON.null JObj.nil)

/-- C7: merging the empty object into `A` returns `A`, and merging `B` into
the empty object returns `B` (for the dicts the program builds, whose keys are
pairwise distinct). -/
theorem C7_empty_identity :
    (∀ A : JObj, deep_merge A JObj.nil = A) ∧
    (∀ B : JObj, B.keys.Nodup → deep_merge JObj.nil B = B) := by
  constructor
  · intro A; rfl
  · intro B hnd
    exact deep_merge_disjoint B JObj.nil hnd (fun k _ => rfl)

/-- C7 at a concrete two-key object. -/
theorem C7_witness : deep_merge c7B JObj.nil = c7B ∧ deep_merge JObj.nil c7B = c7B :=
  ⟨C7_empty_identity.1 c7B, C7_empty_identity.2 c7B (by decide)⟩

/-! ### Claim C8: the Collector returns only successfully parsed files -/

theorem mem_setKeyL {α : Type} : ∀ (acc : List (String × α)) (k : String) (v : α)
    (p : String × α), p ∈ setKeyL acc k v → p ∈ acc ∨ p = (k, v)
  | [], k, v, p, h => Or.inr (by simpa [setKeyL] using h)
  | (k', v') :: rest, k, v, p, h => by
    by_cases hk : k' = k
    · simp only [setKeyL, if_pos hk] at h
      rcases List.mem_cons.mp h with h | h
      · exact Or.inr (by rw [h, hk])
      · exact Or.inl (List.mem_cons_of_mem _ h)
    · simp only [setKeyL, if_neg hk] at h
      rcases List.mem_cons.mp h with h | h
      · exact Or.inl (h ▸ List.mem_cons_self _ _)
      · rcases mem_setKeyL rest k v p h with h | h
        · exact Or.inl (List.mem_cons_of_mem _ h)
        · exact Or.inr h

theorem mem_dictUpdate {α : Type} : ∀ (sub acc : List (String × α)) (p : String × α),
    p ∈ dictUpdate acc sub → p ∈ acc ∨ p ∈ sub
  | [], acc, p, h => Or.inl h
  | q :: rest, acc, p, h => by
    have h2 : p ∈ dictUpdate (setKeyL acc q.1 q.2) rest := h
    rcases mem_dictUpdate rest (setKeyL acc q.1 q.2) p h2 with h3 | h3
    · rcases mem_setKeyL acc q.1 q.2 p h3 with h4 | h4
      · exact Or.inl h4
      · right; rw [h4]; exact List.mem_cons_self _ _
    · exact Or.inr (List.mem_cons_of_mem _ h3)

mutual
theorem collect_item_origin : ∀ (parse : String → Option JSON) (acc : List (String × JSON))
    (t : RTree) (out : List (String × JSON)), collect_item parse acc t = Except.ok out →
    ∀ p, p ∈ out → p ∈ acc ∨ p ∈ okFilesItem parse t
  | parse, acc, RTree.file path durl status body, out, heq, p, hp => by
    cases hj : endsWith path ".json" with
    | false =>
      simp only [collect_item, hj, Bool.false_eq_true, if_false] at heq
      injection heq with h; subst h; exact Or.inl hp
    | true =>
      cases durl with
      | none =>
        simp only [collect_item, hj, if_true] at heq
        injection heq with h; subst h; exact Or.inl hp
      | some u =>
        by_cases hu : u = ""
        · simp only [collect_item, hj, if_true, hu, if_pos rfl] at heq
          injection heq with h; subst h; exact Or.inl hp
        · by_cases hst : status = 200
          · cases hparse : parse body with
            | none =>
              simp only [collect_item, hj, if_true, hu, if_neg hu, hst, if_pos rfl,
                hparse] at heq
              injection heq with h; subst h; exact Or.inl hp
            | some j =>
              simp only [collect_item, hj, if_true, hu, if_neg hu, hst, if_pos rfl,
                hparse] at heq
              injection heq with h; subst h
              rcases mem_setKeyL acc (basename path) j p hp with h | h
              · exact Or.inl h
              · refine Or.inr ?_
                simp [okFilesItem, hj, hu, hst, hparse, h]
          · simp only [collect_item, hj, if_true, hu, if_neg hu, if_neg hst] at heq
            injection heq with h; subst h; exact Or.inl hp
  | parse, acc, RTree.other path, out, heq, p, hp => by
    simp only [collect_item] at heq
    injection heq with h; subst h; exact Or.inl hp
  | parse, acc, RTree.dirFail path status, out, heq, p, hp => by
    simp [collect_item] at heq
  | parse, acc, RTree.dirOk path listing, out, heq, p, hp => by
    simp only [collect_item] at heq
    cases hs : collect_forest parse [] listing with
    | error e => rw [hs] at heq; simp at heq
    | ok sub =>
      rw [hs] at heq
      have heq2 : (Except.ok (dictUpdate acc sub) : Except String (List (String × JSON))) =
          Except.ok out := heq
      injection heq2 with h; subst h
      rcases mem_dictUpdate sub acc p hp with h | h
      · exact Or.inl h
      · rcases collect_forest_origin parse [] listing sub hs p h with h3 | h3
        · exact absurd h3 (List.not_mem_nil p)
        · exact Or.inr h3

theorem collect_forest_origin : ∀ (parse : String → Option JSON) (acc : List (String × JSON))
    (f : RForest) (out : List (String × JSON)), collect_forest parse acc f = Except.ok out →
    ∀ p, p ∈ out → p ∈ acc ∨ p ∈ okFilesForest parse f
  | parse, acc, RForest.nil, out, heq, p, hp => by
    injection heq with h; subst h; exact Or.inl hp
  | parse, acc, RForest.cons t rest, out, heq, p, hp => by
    simp only [collect_forest] at heq
    cases hi : collect_item parse acc t with
    | error e => rw [hi] at heq; simp at heq
    | ok acc' =>
      rw [hi] at heq
      have heq2 : collect_forest parse acc' rest = Except.ok out := heq
      rcases collect_forest_origin parse acc' rest out heq2 p hp with h | h
      · rcases collect_item_origin parse acc t acc' hi p h with h2 | h2
        · exact Or.inl h2
        · exact Or.inr (List.mem_append.mpr (Or.inl h2))
      · exact Or.inr (List.mem_append.mpr (Or.inr h))
end

/-- C8: whatever listing tree and parser outcomes the remote side produces,
every entry of a successfully returned FileSet is the basename and parsed
value of a qualifying file whose download succeeded and whose content parsed
as JSON — files that failed to download or parse never appear. -/
theorem C8_collector_returns_only_parsed (parse : String → Option JSON) (listing : RForest)
    (out : List (String × JSON))
    (heq : get_file_contents_from_github parse listing = Except.ok out) :
    ∀ p ∈ out, p ∈ okFilesForest parse listing := by
  intro p hp
  rcases collect_forest_origin parse [] listing out heq p hp with h | h
  · exact absurd h (List.not_mem_nil p)
  · exact h

def c8parse : String → Option JSON :=
  fun s => if s = "ok" then some (JSON.bool true) else Option.none

def c8forest : RForest :=
  RForest.cons (RTree.file "out/a.json" (some "u1") 200 "bad")
    (RForest.cons
      (RTree.dirOk "out/sub"
        (RForest.cons (RTree.file "out/sub/c.json" (some "u3") 404 "ok") RForest.nil))
      (RForest.cons (RTree.file "out/b.json" (some "u2") 200 "ok") RForest.nil))

/-- C8 at a concrete tree holding one unparseable file, one failed download
and one good file: the run succeeds (traversal continued past the failures)
and its single entry is a successfully parsed file. -/
theorem C8_witness : ("b.json", JSON.bool true) ∈ okFilesForest c8parse c8forest :=
  C8_collector_returns_only_parsed c8parse c8forest [("b.json", JSON.bool true)] (by decide)
    ("b.json", JSON.bool true) (by decide)

/-! ### Claim C9: the empty FileSet is a clean no-op -/

/-- C9: an empty FileSet makes `main` print a message and return without
producing an output file — an outcome distinct both from a failure and from
any written document. -/
theorem C9_empty_fileset_noop :
    main_after_fetch (Except.ok []) = MainOutcome.noOutput ∧
    (∀ e : String, ¬ (MainOutcome.noOutput = MainOutcome.failed e)) ∧
    (∀ d : JSON, ¬ (MainOutcome.noOutput = MainOutcome.wrote d)) :=
  ⟨rfl, fun e h => MainOutcome.noConfusion h, fun d h => MainOutcome.noConfusion h⟩

/-! ### Claim C10: a primitive file after a sequence file raises `TypeError` -/

def c10files : List (String × JSON) :=
  [("a.json", JSON.arr (JArr.cons (JSON.num 1) JArr.nil)), ("b.json", JSON.num 5)]

/-- C10: with `a.json = [1]` making the accumulator a top-level list, the later
primitive file `b.json = 5` makes `merged[key] = content` index the list with
a string key: `TypeError`, no merged document. -/
theorem C10_primitive_after_sequence_raises :
    merge_json_files c10files = Except.error "TypeError" := by
  decide

/-! ### Claim C6: `deep_merge` is pure (heap frame property)

`deep_merge` only allocates (the shallow copy) and writes to the freshly
allocated copy; every object that existed before the call — in particular
`base`, `new` and everything nested in them — is untouched. -/

theorem dm_loop_write_frame (fuel : Nat)
    (ihl : ∀ (h : Heap) (resA : Addr) (ents : List (String × PyVal)) (out : Heap × Addr),
      dm_loop fuel h resA ents = some out →
      (∀ a : Addr, a < h.next → a ≠ resA → out.1.store a = h.store a) ∧
      h.next ≤ out.1.next ∧ out.2 = resA)
    (h : Heap) (resA : Addr) (n : Node) (rest : List (String × PyVal)) (out : Heap × Addr)
    (heq : dm_loop fuel (h.write resA n) resA rest = some out) :
    (∀ a : Addr, a < h.next → a ≠ resA → out.1.store a = h.store a) ∧
    h.next ≤ out.1.next ∧ out.2 = resA := by
  obtain ⟨hfr, hle, hres⟩ := ihl _ _ _ _ heq
  have hnext : (h.write resA n).next = h.next := rfl
  rw [hnext] at hle
  refine ⟨?_, hle, hres⟩
  intro a ha hne
  have h1 := hfr a (by rw [hnext]; exact ha) hne
  rw [h1]
  show (if a = resA then some n else h.store a) = h.store a
  simp [hne]

theorem dm_frame : ∀ fuel : Nat,
    (∀ (h : Heap) (baseA newA : Addr) (out : Heap × Addr),
      deep_merge_h fuel h baseA newA = some out →
      (∀ a : Addr, a < h.next → out.1.store a = h.store a) ∧
      h.next ≤ out.1.next ∧ out.2 = h.next) ∧
    (∀ (h : Heap) (resA : Addr) (ents : List (String × PyVal)) (out : Heap × Addr),
      dm_loop fuel h resA ents = some out →
      (∀ a : Addr, a < h.next → a ≠ resA → out.1.store a = h.store a) ∧
      h.next ≤ out.1.next ∧ out.2 = resA) := by
  intro fuel
  induction fuel with
  | zero =>
    exact ⟨fun h b n out heq => absurd heq (by simp [deep_merge_h]),
           fun h r e out heq => absurd heq (by simp [dm_loop])⟩
  | succ fuel ih =>
    obtain ⟨ihm, ihl⟩ := ih
    constructor
    · intro h baseA newA out heq
      simp only [deep_merge_h] at heq
      split at heq
      · split at heq
        · rename_i nd hbase
          obtain ⟨hfr, hle, hres⟩ := ihl _ _ _ _ heq
          have hnext : (h.alloc nd).1.next = h.next + 1 := rfl
          have hres2 : (h.alloc nd).2 = h.next := rfl
          rw [hnext] at hle
          refine ⟨?_, Nat.le_of_succ_le hle, by rw [hres, hres2]⟩
          intro a ha
          have hne : a ≠ h.next := Nat.ne_of_lt ha
          have h1 := hfr a (by rw [hnext]; exact Nat.lt_succ_of_lt ha) (by rw [hres2]; exact hne)
          rw [h1]
          show (if a = h.next then some nd else h.store a) = h.store a
          simp [hne]
        · exact absurd heq (by simp)
      · exact absurd heq (by simp)
    · intro h resA ents out heq
      cases ents with
      | nil =>
        simp only [dm_loop] at heq
        injection heq with h1
        rw [← h1]
        exact ⟨fun a _ _ => rfl, le_refl _, rfl⟩
      | cons kv rest =>
        obtain ⟨k, v⟩ := kv
        simp only [dm_loop] at heq
        split at heq
        · -- the copy at `resA` is a dict
          rename_i rents hst
          split at heq
          · -- `key in result`, `result[key]` and `value` are both refs …
            split at heq
            · -- … and both point at dict nodes: the recursive merge runs
              split at heq
              · -- the recursive merge returned
                rename_i h2 ma hdm
                split at heq
                · rename_i rents2 hst2
                  obtain ⟨hfr2, hle2, _⟩ := ihm _ _ _ _ hdm
                  obtain ⟨hfr3, hle3, hres3⟩ := ihl _ _ _ _ heq
                  have hnext2 : (h2.write resA
                      (Node.dict (setKeyL rents2 k (PyVal.ref ma)))).next = h2.next := rfl
                  rw [hnext2] at hle3
                  refine ⟨?_, le_trans hle2 hle3, hres3⟩
                  intro a ha hne
                  have h1 := hfr3 a (by rw [hnext2]; exact lt_of_lt_of_le ha hle2) hne
                  rw [h1]
                  have h2s : (h2.write resA
                      (Node.dict (setKeyL rents2 k (PyVal.ref ma)))).store a =
                      h2.store a := by
                    show (if a = resA then _ else h2.store a) = h2.store a
                    simp [hne]
                  rw [h2s]
                  exact hfr2 a ha
                · exact absurd heq (by simp)
              · exact absurd heq (by simp)
            · exact dm_loop_write_frame fuel ihl h resA _ rest out heq
          · exact dm_loop_write_frame fuel ihl h resA _ rest out heq
        · exact absurd heq (by simp)
        · exact absurd heq (by simp)

/-- C6: `deep_merge` is pure — whenever a heap run of `deep_merge` returns, every
address that existed before the call (so `base`, `new` and all structure
reachable from them) holds exactly what it held before; the returned object is
the freshly allocated copy, disjoint from every pre-existing address. -/
theorem C6_deep_merge_pure (fuel : Nat) (h : Heap) (baseA newA : Addr) (out : Heap × Addr)
    (heq : deep_merge_h fuel h baseA newA = some out) :
    (∀ a : Addr, a < h.next → out.1.store a = h.store a) ∧
    h.next ≤ out.1.next ∧ out.2 = h.next :=
  (dm_frame fuel).1 h baseA newA out heq

def c6Heap : Heap :=
  { store := fun a =>
      if a = 0 then some (Node.dict [("a", PyVal.int 1)])
      else if a = 1 then some (Node.dict [("a", PyVal.int 2)]) else Option.none,
    next := 2 }

/-- C6 at a concrete heap: merging the dict at address 1 into the dict at
address 0 leaves both argument objects unchanged and returns the fresh copy. -/
theorem C6_witness :
    ∃ out : Heap × Addr, deep_merge_h 3 c6Heap 0 1 = some out ∧
      out.1.store 0 = c6Heap.store 0 ∧ out.1.store 1 = c6Heap.store 1 ∧
      out.2 = c6Heap.next := by
  cases hp : deep_merge_h 3 c6Heap 0 1 with
  | none => exact absurd (congrArg Option.isSome hp) (by decide)
  | some out =>
    obtain ⟨hfr, hle, hres⟩ := C6_deep_merge_pure 3 c6Heap 0 1 out hp
    exact ⟨out, rfl, hfr 0 (by decide), hfr 1 (by decide), hres⟩

/-! ### Claim C4: the FileSet is NOT left unchanged by the Merger -/

def c4Heap : Heap :=
  { store := fun a =>
      if a = 0 then some (Node.list [PyVal.int 1])
      else if a = 1 then some (Node.list [PyVal.int 2]) else Option.none,
    next := 2 }

/-- The FileSet `a.json = [1], b.json = [2]` (both values live on the heap). -/
def c4Files : List (String × PyVal) := [("a.json", PyVal.ref 0), ("b.json", PyVal.ref 1)]

/-- C4, counterexample: running the merger over `a.json = [1], b.json = [2]`
mutates the FileSet — the accumulator aliases `a.json`'s list and
`merged.extend(content)` extends that very object in place, so after the run
the value stored for `a.json` is no longer `[1]`. -/
theorem C4_counterexample :
    ∃ out : Heap × Addr, merge_json_files_h 4 c4Heap c4Files = some out ∧
      ¬ (out.1.store 0 = c4Heap.store 0) := by
  cases hp : merge_json_files_h 4 c4Heap c4Files with
  | none => exact absurd (congrArg Option.isSome hp) (by decide)
  | some out =>
    refine ⟨out, rfl, ?_⟩
    have hobs : (merge_json_files_h 4 c4Heap c4Files).map (fun q => q.1.store 0) =
        some (some (Node.list [PyVal.int 1, PyVal.int 2])) := rfl
    rw [hp] at hobs
    simp only [Option.map_some'] at hobs
    rw [Option.some.inj hobs]
    decide

/-- C4 as amended: the Merger can mutate list values stored in the FileSet in
place — here `a.json`'s list object (address 0) ends as `[1, 2]`, and the
returned document is that very aliased object. -/
theorem C4_fileset_list_mutated :
    (merge_json_files_h 4 c4Heap c4Files).map (fun p => (p.1.store 0, p.2)) =
      some (some (Node.list [PyVal.int 1, PyVal.int 2]), 0) ∧
    c4Heap.store 0 = some (Node.list [PyVal.int 1]) :=
  ⟨rfl, rfl⟩

end CS2DumperMerger
